import Mathlib

/-!
Verification of the pyjamaz constrained re-encoding optimizer against its
specification.  The repository ships only the Python binding examples and
tests; the native engine (Decoder, Metric Evaluator, Encoder Adapters,
Constraint Search Controller, Format Selector, Result Cache, Result
Assembler) is modelled here from the specification, faithful to its words,
and the claims are settled against that model.
-/

namespace Pyjamaz

/-- Candidate output format tags of the external contract (§6): JPEG and PNG
as universally supported targets, WEBP and AVIF as optional targets. -/
inductive Format
  | jpeg
  | png
  | webp
  | avif
deriving DecidableEq

/-- Perceptual metric selector (§6): `none`, metric-A (dssim),
metric-B (ssimulacra2). -/
inductive Metric
  | none
  | dssim
  | ssimulacra2
deriving DecidableEq

/-- Modelled from the spec (§3 SourceImage): immutable decoded pixel buffer,
dimensions, channel layout, detected source format.  The concrete pixel
decoding lives in the native engine, absent from the binding sources. -/
structure SourceImage where
  width : Nat
  height : Nat
  channels : Nat
  pixels : List Nat
  srcFormat : Format
deriving DecidableEq

/-- Modelled from the spec (§3 Constraint, §6 request contract). -/
structure Constraint where
  max_bytes : Option Nat
  max_diff : Option ℚ
  metric : Metric
  candidate_formats : List Format
  concurrency : Nat
  cache_enabled : Bool
deriving DecidableEq

/-- Modelled from the spec (§3 CandidateEncoding): format tag, quality
parameter value, encoded byte buffer, byte size, computed diff value. -/
structure Candidate where
  format : Format
  quality : Nat
  data : List Nat
  size : Nat
  diff : Option ℚ
deriving DecidableEq

/-- Modelled from the spec (§3, §6 response contract): `passed`, chosen
format, chosen encoded bytes, size, diff value, `error_message`. -/
structure OptimizationResult where
  passed : Bool
  format : Option Format
  output_buffer : List Nat
  size : Nat
  diff_value : ℚ
  error_message : Option String
deriving DecidableEq

/-- Error taxonomy for the Decoder (§7): empty input, truncated header,
unrecognized container, corrupt body data. -/
inductive DecodeError
  | emptyInput
  | truncatedHeader
  | unknownContainer
  | corruptData
deriving DecidableEq

/-- Top-level failures surfaced to the binding caller as exceptions. -/
inductive OptError
  | decodeFailed (e : DecodeError)
  | fileNotFound
deriving DecidableEq

/-- JPEG container signature bytes. -/
def jpegMagic : List Nat := [255, 216, 255]

/-- PNG container signature bytes. -/
def pngMagic : List Nat := [137, 80, 78, 71, 13, 10, 26, 10]

/-- RIFF/WEBP container signature bytes. -/
def webpMagic : List Nat := [82, 73, 70, 70]

/-- AVIF (ISO-BMFF ftyp) container signature bytes. -/
def avifMagic : List Nat := [0, 0, 0, 32, 102, 116, 121, 112]

/-- Does the buffer begin with the given signature? -/
def startsWithBytes (b m : List Nat) : Bool :=
  decide (b.take m.length = m)

/-- Is the buffer a nonempty strict prefix of the given signature
(a truncated header)? -/
def strictHeadOfMagic (b m : List Nat) : Bool :=
  decide (0 < b.length ∧ b.length < m.length ∧ m.take b.length = b)

/-- A nonempty buffer shorter than, and agreeing with, some container
signature: a truncated header. -/
def looksTruncated (b : List Nat) : Bool :=
  strictHeadOfMagic b jpegMagic || strictHeadOfMagic b pngMagic ||
    strictHeadOfMagic b webpMagic || strictHeadOfMagic b avifMagic

/-- Container detection by signature. -/
def detectFormat (b : List Nat) : Option Format :=
  if startsWithBytes b jpegMagic then some Format.jpeg
  else if startsWithBytes b pngMagic then some Format.png
  else if startsWithBytes b webpMagic then some Format.webp
  else if startsWithBytes b avifMagic then some Format.avif
  else Option.none

/-- Malformed input in the sense of the claim: empty buffer, truncated
header, or not a recognized image container. -/
def malformedInput (b : List Nat) : Bool :=
  b.isEmpty || looksTruncated b || (detectFormat b).isNone

/-- Modelled from the spec (§4.1 Decoder): `decode(bytes) → SourceImage |
DecodeError`; rejects empty input, truncated headers, and byte sequences
matching no supported container signature, each as a distinct error rather
than a crash.  The per-format pixel parsing of the native engine is the
parameter `parseBody`. -/
def decode (parseBody : Format → List Nat → Option SourceImage)
    (b : List Nat) : Except DecodeError SourceImage :=
  if b.isEmpty then Except.error DecodeError.emptyInput
  else if looksTruncated b then Except.error DecodeError.truncatedHeader
  else
    match detectFormat b with
    | Option.none => Except.error DecodeError.unknownContainer
    | Option.some f =>
      match parseBody f b with
      | Option.none => Except.error DecodeError.corruptData
      | Option.some img => Except.ok img

/-- Modelled from the spec (§4.2 Metric Evaluator): `score(reference,
candidate, metric)`; `metric = none` short-circuits to the fixed value 0 and
performs no round-trip decode.  The second component counts the round-trip
decodes performed; `reDecode` is the native candidate re-decoding.  A
candidate whose round-trip decode fails is excluded (scored `none`), not
scored as infinitely bad (§3 invariant). -/
def score (perceptual : Metric → SourceImage → SourceImage → ℚ)
    (reDecode : Format → List Nat → Option SourceImage)
    (ref : SourceImage) (fmt : Format) (cand : List Nat) (m : Metric) :
    Option ℚ × Nat :=
  match m with
  | Metric.none => (some (0 : ℚ), 0)
  | _ =>
    match reDecode fmt cand with
    | Option.none => (Option.none, 1)
    | Option.some img => (some (perceptual m ref img), 1)

/-- Modelled from the spec (§4.3 Encoder Adapter): per-format
`encode(pixels, quality) → bytes | EncodeError` plus the quality parameter's
valid closed range.  The adapter-declared fidelity direction is folded in:
quality is normalized so that a higher parameter means higher fidelity and
non-smaller size. -/
structure EncoderAdapter where
  qMin : Nat
  qMax : Nat
  encode : SourceImage → Nat → Option (List Nat)

/-- Modelled from the spec (§2): the native engine's external collaborators,
absent from the binding sources — per-format pixel parsing, candidate
round-trip decoding, the two perceptual metrics, and one encoder adapter per
format. -/
structure Engine where
  parseBody : Format → List Nat → Option SourceImage
  reDecode : Format → List Nat → Option SourceImage
  perceptual : Metric → SourceImage → SourceImage → ℚ
  adapters : Format → EncoderAdapter

/-- One probe encode at a given quality (§4.4): encode, then score; a probe
that fails to encode (or whose active-metric round trip fails) is discarded. -/
def probeAt (env : Engine) (img : SourceImage) (f : Format) (c : Constraint)
    (q : Nat) : Option Candidate :=
  match (env.adapters f).encode img q with
  | Option.none => Option.none
  | Option.some bytes =>
    match (score env.perceptual env.reDecode img f bytes c.metric).1 with
    | Option.none => Option.none
    | Option.some d => Option.some ⟨f, q, bytes, bytes.length, some d⟩

/-- Does the candidate meet the size bound (vacuously when unset)? -/
def meetsSize (c : Constraint) (cand : Candidate) : Bool :=
  match c.max_bytes with
  | Option.none => true
  | Option.some mb => decide (cand.size ≤ mb)

/-- Does the candidate meet the diff bound (vacuously when unset)? -/
def meetsDiff (c : Constraint) (cand : Candidate) : Bool :=
  match c.max_diff with
  | Option.none => true
  | Option.some md =>
    match cand.diff with
    | Option.none => false
    | Option.some d => decide (d ≤ md)

/-- Does the candidate meet every constraint that was set? -/
def meetsAll (c : Constraint) (cand : Candidate) : Bool :=
  meetsSize c cand && meetsDiff c cand

/-- Iteration cap of the bounded bisection (§4.4 step 3: "bounded, e.g.,
≤ 12 steps"). -/
def bisectCap : Nat := 12

/-- Modelled from the spec (§4.4 step 2-3): bisection over the half-open
quality interval `[lo, hi)`; at each step encode at the midpoint, narrow
toward higher quality if every set bound is met there, toward lower quality
otherwise; a failed probe is discarded and the search continues; terminate
when the interval collapses or the fuel (iteration cap) runs out. -/
def bisect (probe : Nat → Option Candidate) (c : Constraint) :
    Nat → Nat → Nat → List Candidate
  | 0, _, _ => []
  | Nat.succ fuel, lo, hi =>
    if hi ≤ lo then []
    else
      let mid := (lo + hi) / 2
      match probe mid with
      | Option.none => bisect probe c fuel lo mid
      | Option.some cand =>
        if meetsAll c cand then cand :: bisect probe c fuel (mid + 1) hi
        else cand :: bisect probe c fuel lo mid

/-- Modelled from the spec (§4.4 steps 1-3 and edge cases): the probes one
format's search performs.  With neither bound set, a single encode at the
maximum-quality parameter suffices (no search).  Otherwise probe the
extremes; if even the most-aggressive setting cannot fit `max_bytes`, stop
(the format is non-satisfiable by size, its smallest candidate retained);
else bisect the interior of the range under the iteration cap. -/
def formatProbes (env : Engine) (img : SourceImage) (c : Constraint)
    (f : Format) : List Candidate :=
  let ad := env.adapters f
  let probe := probeAt env img f c
  match c.max_bytes, c.max_diff with
  | Option.none, Option.none => (probe ad.qMax).toList
  | _, _ =>
    let extremes := (probe ad.qMin).toList ++ (probe ad.qMax).toList
    match probe ad.qMin with
    | Option.some lowest =>
      if meetsSize c lowest then
        extremes ++ bisect probe c bisectCap (ad.qMin + 1) ad.qMax
      else extremes
    | Option.none => extremes ++ bisect probe c bisectCap (ad.qMin + 1) ad.qMax

/-- Selection of a minimal candidate under a strict comparison; the earliest
candidate wins ties. -/
def minByKeep (better : Candidate → Candidate → Bool) :
    List Candidate → Option Candidate
  | [] => Option.none
  | x :: xs =>
    match minByKeep better xs with
    | Option.none => some x
    | Option.some y => if better y x then some y else some x

/-- Smallest-size candidate of a list, earliest wins ties. -/
def minBySize : List Candidate → Option Candidate :=
  minByKeep (fun a b => decide (a.size < b.size))

/-- Strict comparison of (present) diff values; a candidate with an absent
diff is never preferred. -/
def diffBelow (a b : Candidate) : Bool :=
  match a.diff, b.diff with
  | Option.some x, Option.some y => decide (x < y)
  | Option.some _, Option.none => true
  | Option.none, _ => false

/-- Smallest-diff candidate of a list, earliest wins ties. -/
def minByDiff : List Candidate → Option Candidate :=
  minByKeep diffBelow

/-- Per-format outcome (§4.4 step 4 / §4.5): whether the format satisfied
every set constraint, and its best (possibly best-effort) candidate. -/
structure FormatOutcome where
  satisfied : Bool
  best : Option Candidate
deriving DecidableEq

/-- Modelled from the spec (§4.4 step 4): among the probed candidates
satisfying both set constraints select the smallest; if none, the
smallest-diff candidate among those within `max_bytes`; else the format
failed, its best-effort (smallest) candidate retained. -/
def selectCandidate (c : Constraint) (probes : List Candidate) :
    FormatOutcome :=
  match minBySize (probes.filter (fun p => meetsAll c p)) with
  | Option.some b => ⟨true, some b⟩
  | Option.none =>
    match minByDiff (probes.filter (fun p => meetsSize c p)) with
    | Option.some b => ⟨false, some b⟩
    | Option.none => ⟨false, minBySize probes⟩

/-- One format's bounded constraint search (§4.4). -/
def searchFormat (env : Engine) (img : SourceImage) (c : Constraint)
    (f : Format) : FormatOutcome :=
  selectCandidate c (formatProbes env img c f)

/-- Modelled from the spec (§4.5, §5): the Format Selector collects each
format's outcome; `sched` is the order worker completions are collected in,
a permutation of `candidate_formats` induced by the scheduler. -/
def collectOutcomes (env : Engine) (img : SourceImage) (c : Constraint)
    (sched : List Format) : List (Format × FormatOutcome) :=
  sched.map (fun f => (f, searchFormat env img c f))

/-- First collected outcome for a format. -/
def lookupOutcome : List (Format × FormatOutcome) → Format →
    Option FormatOutcome
  | [], _ => Option.none
  | (g, o) :: rest, f => if g = f then some o else lookupOutcome rest f

/-- The satisfying candidate a format contributed, if any. -/
def satCand (look : Format → Option FormatOutcome) (f : Format) :
    Option Candidate :=
  match look f with
  | Option.some o => if o.satisfied then o.best else Option.none
  | Option.none => Option.none

/-- The best-effort candidate a format contributed, if any. -/
def bestCand (look : Format → Option FormatOutcome) (f : Format) :
    Option Candidate :=
  match look f with
  | Option.some o => o.best
  | Option.none => Option.none

/-- Modelled from the spec (§4.5): scan the declared `candidate_formats`
order; smallest resulting byte size wins, ties broken by the order the
formats appear. -/
def pickMinSize (look : Format → Option Candidate) :
    List Format → Option (Format × Candidate)
  | [] => Option.none
  | f :: rest =>
    match look f, pickMinSize look rest with
    | Option.some cand, Option.some (g, c0) =>
      if c0.size < cand.size then some (g, c0) else some (f, cand)
    | Option.some cand, Option.none => some (f, cand)
    | Option.none, r => r

/-- Modelled from the spec (§4.5): selection across formats — a satisfying
winner when one exists; otherwise `passed = false` with the best-effort
candidate from the format with the smallest size. -/
def selectWinner (c : Constraint) (outcomes : List (Format × FormatOutcome)) :
    Bool × Option (Format × Candidate) :=
  match pickMinSize (satCand (lookupOutcome outcomes)) c.candidate_formats with
  | Option.some fc => (true, some fc)
  | Option.none =>
    (false, pickMinSize (bestCand (lookupOutcome outcomes)) c.candidate_formats)

/-- Hard-failure message used when every candidate format failed to encode. -/
def allFailedMsg : String := "all candidate formats failed to encode"

/-- Modelled from the spec (§4.7 Result Assembler, §6): package the
selector's outcome; `error_message` is set only on a hard failure (no
candidate at all), never for an unattainable constraint. -/
def assemble (sel : Bool × Option (Format × Candidate)) : OptimizationResult :=
  match sel with
  | (p, Option.some (f, cand)) =>
    ⟨p, some f, cand.data, cand.size, cand.diff.getD 0, Option.none⟩
  | (_, Option.none) => ⟨false, Option.none, [], 0, 0, some allFailedMsg⟩

/-- Optimize an already-decoded image under a given collection schedule. -/
def optimizeDecoded (env : Engine) (img : SourceImage) (c : Constraint)
    (sched : List Format) : OptimizationResult :=
  assemble (selectWinner c (collectOutcomes env img c sched))

/-- Modelled from the spec (§2 data flow, §6): the binding entry point on an
in-memory buffer — decode, fan out across candidate formats, select, and
assemble.  A decode failure is surfaced before any format search begins. -/
def optimize_from_bytes (env : Engine) (b : List Nat) (c : Constraint) :
    Except OptError OptimizationResult :=
  match decode env.parseBody b with
  | Except.error e => Except.error (OptError.decodeFailed e)
  | Except.ok img => Except.ok (optimizeDecoded env img c c.candidate_formats)

/-- Modelled from the spec (§3, Glossary): a cache fingerprint is a function
of the source bytes' content and the full Constraint — formats list, metric,
and both bounds — so that two requests differing in any parameter never
collide. -/
structure Fingerprint where
  content : List Nat
  max_bytes : Option Nat
  max_diff : Option ℚ
  metric : Metric
  formats : List Format
deriving DecidableEq

/-- Fingerprint of a request. -/
def fingerprint (b : List Nat) (c : Constraint) : Fingerprint :=
  ⟨b, c.max_bytes, c.max_diff, c.metric, c.candidate_formats⟩

/-- Modelled from the spec (§3 CacheEntry, §4.6): fingerprint-addressed
store of immutable results, insertion order tracked. -/
def Cache := List (Fingerprint × OptimizationResult)

/-- Cache lookup: `get(fingerprint) → OptimizationResult | miss` (§4.6). -/
def cacheGet : Cache → Fingerprint → Option OptimizationResult
  | [], _ => Option.none
  | (k, r) :: rest, fp => if k = fp then some r else cacheGet rest fp

/-- Cache store: `put(fingerprint, result)` (§4.6). -/
def cachePut (store : Cache) (fp : Fingerprint) (r : OptimizationResult) :
    Cache :=
  (fp, r) :: store

/-- Modelled from the spec (§4.6): the request path with the Result Cache.
Used only when `cache_enabled`; a miss falls through to full computation and
stores; a hit bypasses the Decoder, Search Controller and Format Selector
entirely, returning the stored result unchanged. -/
def optimize_cached (env : Engine) (store : Cache) (b : List Nat)
    (c : Constraint) : Except OptError OptimizationResult × Cache :=
  if c.cache_enabled then
    match cacheGet store (fingerprint b c) with
    | Option.some r => (Except.ok r, store)
    | Option.none =>
      match optimize_from_bytes env b c with
      | Except.error e => (Except.error e, store)
      | Except.ok r => (Except.ok r, cachePut store (fingerprint b c) r)
  else (optimize_from_bytes env b c, store)

/-- Lookup of a path in an association-list file store. -/
def fsGet : List (String × List Nat) → String → Option (List Nat)
  | [], _ => Option.none
  | (p, d) :: rest, q => if p = q then some d else fsGet rest q

/-- Binding-layer image input: a file path or an in-memory buffer (§6). -/
inductive ImageInput
  | path (p : String)
  | buffer (b : List Nat)

/-- Modelled from the spec (§6 request contract) and the binding examples:
`optimize_image` accepts a string path or raw bytes; an unreadable source is
a hard failure surfaced as an exception, producing no result object. -/
def optimize_image (env : Engine) (files : List (String × List Nat))
    (input : ImageInput) (c : Constraint) :
    Except OptError OptimizationResult :=
  match input with
  | ImageInput.path p =>
    match fsGet files p with
    | Option.none => Except.error OptError.fileNotFound
    | Option.some b => optimize_from_bytes env b c
  | ImageInput.buffer b => optimize_from_bytes env b c

/-- A destination file system for `save`: stored files plus which paths can
be created. -/
structure FileStore where
  files : List (String × List Nat)
  writable : String → Bool

/-- Distinct failures of `save` (§6): destination cannot be created, or the
streaming write itself failed. -/
inductive SaveError
  | cannotCreate
  | writeFailed
deriving DecidableEq

/-- Granularity of the modelled streaming write. -/
def saveGrain : Nat := 3

/-- Split a buffer into chunks of `k + 1` bytes (fuel-driven so that it
computes by reduction). -/
def chunksOfAux (k : Nat) : Nat → List Nat → List (List Nat)
  | 0, _ => []
  | _, [] => []
  | Nat.succ fuel, x :: xs => (x :: xs.take k) :: chunksOfAux k fuel (xs.drop k)

/-- Split a buffer into chunks of `k + 1` bytes. -/
def chunksOf (k : Nat) (l : List Nat) : List (List Nat) :=
  chunksOfAux k l.length l

/-- Stream chunks to a scratch file; `ok i` tells whether writing the `i`-th
chunk succeeds.  Returns the fully written content, or `none` if any chunk
write failed (the partial scratch content is discarded, never published). -/
def writeChunks (ok : Nat → Bool) : List (List Nat) → Nat → Option (List Nat)
  | [], _ => some []
  | ch :: rest, i =>
    if ok i then
      match writeChunks ok rest (i + 1) with
      | Option.some tail => some (ch ++ tail)
      | Option.none => Option.none
    else Option.none

/-- Record a file under a path. -/
def fsSet (files : List (String × List Nat)) (p : String) (d : List Nat) :
    List (String × List Nat) :=
  (p, d) :: files

/-- Modelled from the spec (§4.7, §6 `save(destination)`): a scoped write
that streams `output_buffer` chunk by chunk to a scratch area and publishes
the destination only once the full buffer was written; it fails with a
distinct error if the destination cannot be created, and a failed stream
(modelled by the chunk oracle `ok`) publishes nothing — no truncated file is
ever observable at the destination. -/
def save (st : FileStore) (dest : String) (data : List Nat)
    (ok : Nat → Bool) : FileStore × Except SaveError Unit :=
  if st.writable dest then
    match writeChunks ok (chunksOf saveGrain data) 0 with
    | Option.some full => (⟨fsSet st.files dest full, st.writable⟩, Except.ok ())
    | Option.none => (st, Except.error SaveError.writeFailed)
  else (st, Except.error SaveError.cannotCreate)

/-! ### A small concrete engine used to witness the theorems. -/

/-- A tiny decoded image for witnesses. -/
def toyImage : SourceImage := ⟨2, 2, 3, [1, 2, 3, 4], Format.jpeg⟩

/-- A toy adapter whose encoding at quality `q` has `base + q` bytes
(monotone in quality), over the quality range `[1, 8]`. -/
def toyAdapter (base : Nat) : EncoderAdapter :=
  ⟨1, 8, fun _ q => some (List.replicate (base + q) 7)⟩

/-- A concrete engine: every format encodes, webp smallest, perceptual
distance constant 0. -/
def toyEngine : Engine :=
  ⟨fun _ b => if b.length < 4 then Option.none else some toyImage,
   fun _ _ => some toyImage,
   fun _ _ _ => 0,
   fun f =>
     match f with
     | Format.jpeg => toyAdapter 20
     | Format.png => toyAdapter 30
     | Format.webp => toyAdapter 10
     | Format.avif => toyAdapter 15⟩

/-- A well-formed JPEG-signature input buffer for witnesses. -/
def toyBytes : List Nat := [255, 216, 255, 224, 0, 16]

/-! ### Helper lemmas about the selection primitives -/

lemma minByKeep_cons (bt : Candidate → Candidate → Bool) (x : Candidate)
    (xs : List Candidate) : ∃ b, minByKeep bt (x :: xs) = some b := by
  simp only [minByKeep]
  cases minByKeep bt xs with
  | none => exact ⟨x, rfl⟩
  | some y =>
    by_cases hb : bt y x
    · exact ⟨y, by simp [hb]⟩
    · exact ⟨x, by simp [hb]⟩

lemma minByKeep_eq_none {bt : Candidate → Candidate → Bool}
    {l : List Candidate} (h : minByKeep bt l = Option.none) : l = [] := by
  cases l with
  | nil => rfl
  | cons x xs =>
    obtain ⟨b, hb⟩ := minByKeep_cons bt x xs
    rw [hb] at h
    simp at h

lemma minByKeep_mem {bt : Candidate → Candidate → Bool} :
    ∀ {l : List Candidate} {b : Candidate},
      minByKeep bt l = some b → b ∈ l := by
  intro l
  induction l with
  | nil => intro b h; simp [minByKeep] at h
  | cons x xs ih =>
    intro b h
    simp only [minByKeep] at h
    cases hm : minByKeep bt xs with
    | none =>
      rw [hm] at h
      simp only [Option.some.injEq] at h
      exact h ▸ List.mem_cons_self x xs
    | some y =>
      rw [hm] at h
      by_cases hb : bt y x
      · simp only [if_pos hb, Option.some.injEq] at h
        exact h ▸ List.mem_cons_of_mem x (ih hm)
      · simp only [if_neg hb, Option.some.injEq] at h
        exact h ▸ List.mem_cons_self x xs

lemma minBySize_mem {l : List Candidate} {b : Candidate}
    (h : minBySize l = some b) : b ∈ l :=
  minByKeep_mem h

lemma minByDiff_mem {l : List Candidate} {b : Candidate}
    (h : minByDiff l = some b) : b ∈ l :=
  minByKeep_mem h

lemma minBySize_le : ∀ {l : List Candidate} {b : Candidate},
    minBySize l = some b → ∀ x ∈ l, b.size ≤ x.size := by
  intro l
  induction l with
  | nil => intro b h; simp [minBySize, minByKeep] at h
  | cons x xs ih =>
    intro b h z hz
    simp only [minBySize, minByKeep] at h
    cases hm : minByKeep (fun a b => decide (a.size < b.size)) xs with
    | none =>
      rw [hm] at h
      simp only [Option.some.injEq] at h
      have hxs : xs = [] := minByKeep_eq_none hm
      subst hxs
      rcases List.mem_cons.mp hz with hzx | hzx
      · rw [← h, hzx]
      · simp at hzx
    | some y =>
      rw [hm] at h
      have hy : minBySize xs = some y := hm
      by_cases hb : y.size < x.size
      · simp only [hb, decide_True, if_true, Option.some.injEq] at h
        rcases List.mem_cons.mp hz with hzx | hzx
        · rw [← h, hzx]; exact le_of_lt hb
        · exact h ▸ ih hy z hzx
      · simp [hb] at h
        rcases List.mem_cons.mp hz with hzx | hzx
        · rw [← h, hzx]
        · calc b.size = x.size := by rw [← h]
            _ ≤ y.size := le_of_not_lt hb
            _ ≤ z.size := ih hy z hzx

/-! ### Helper lemmas about the per-format search -/

lemma selectCandidate_mem {c : Constraint} {probes : List Candidate}
    {b : Candidate} (h : (selectCandidate c probes).best = some b) :
    b ∈ probes := by
  simp only [selectCandidate] at h
  cases h1 : minBySize (probes.filter (fun p => meetsAll c p)) with
  | some b0 =>
    rw [h1] at h
    simp only [Option.some.injEq] at h
    exact List.mem_of_mem_filter (h ▸ minBySize_mem h1)
  | none =>
    rw [h1] at h
    cases h2 : minByDiff (probes.filter (fun p => meetsSize c p)) with
    | some b0 =>
      rw [h2] at h
      simp only [Option.some.injEq] at h
      exact List.mem_of_mem_filter (h ▸ minByDiff_mem h2)
    | none =>
      rw [h2] at h
      exact minBySize_mem h

lemma selectCandidate_sat {c : Constraint} {probes : List Candidate}
    (h : (selectCandidate c probes).satisfied = true) :
    ∃ b, (selectCandidate c probes).best = some b ∧ meetsAll c b = true := by
  simp only [selectCandidate] at h ⊢
  cases h1 : minBySize (probes.filter (fun p => meetsAll c p)) with
  | some b0 =>
    refine ⟨b0, by simp [h1], ?_⟩
    have := minBySize_mem h1
    exact (List.mem_filter.mp this).2
  | none =>
    rw [h1] at h
    cases h2 : minByDiff (probes.filter (fun p => meetsSize c p)) with
    | some b0 => rw [h2] at h; simp at h
    | none => rw [h2] at h; simp at h

lemma selectCandidate_unsat {c : Constraint} {probes : List Candidate}
    {b : Candidate} (hs : (selectCandidate c probes).satisfied = false)
    (hb : (selectCandidate c probes).best = some b) :
    meetsAll c b = false := by
  simp only [selectCandidate] at hs hb
  cases h1 : minBySize (probes.filter (fun p => meetsAll c p)) with
  | some b0 => rw [h1] at hs; simp at hs
  | none =>
    have hfilter : probes.filter (fun p => meetsAll c p) = [] :=
      minByKeep_eq_none h1
    rw [h1] at hb
    cases h2 : minByDiff (probes.filter (fun p => meetsSize c p)) with
    | some b0 =>
      rw [h2] at hb
      simp only [Option.some.injEq] at hb
      by_contra hcon
      have hmeets : meetsAll c b = true := by
        cases hma : meetsAll c b
        · exact absurd hma hcon
        · rfl
      have hmemprobes : b ∈ probes :=
        List.mem_of_mem_filter (hb ▸ minByDiff_mem h2)
      have : b ∈ probes.filter (fun p => meetsAll c p) :=
        List.mem_filter.mpr ⟨hmemprobes, hmeets⟩
      rw [hfilter] at this
      simp at this
    | none =>
      rw [h2] at hb
      have hmemprobes : b ∈ probes := minBySize_mem hb
      have hfilter2 : probes.filter (fun p => meetsSize c p) = [] :=
        minByKeep_eq_none h2
      by_contra hcon
      have hmeets : meetsAll c b = true := by
        cases hma : meetsAll c b
        · exact absurd hma hcon
        · rfl
      have hsize : meetsSize c b = true := by
        have := hmeets
        simp only [meetsAll, Bool.and_eq_true] at this
        exact this.1
      have hbmem : b ∈ probes.filter (fun p => meetsSize c p) :=
        List.mem_filter.mpr ⟨hmemprobes, hsize⟩
      rw [hfilter2] at hbmem
      simp at hbmem

lemma probeAt_diff {env : Engine} {img : SourceImage} {f : Format}
    {c : Constraint} {q : Nat} {cand : Candidate}
    (h : probeAt env img f c q = some cand) : ∃ d, cand.diff = some d := by
  simp only [probeAt] at h
  cases he : (env.adapters f).encode img q with
  | none => rw [he] at h; simp at h
  | some bytes =>
    simp only [he] at h
    cases hs : (score env.perceptual env.reDecode img f bytes c.metric).1 with
    | none => simp only [hs] at h; exact Option.noConfusion h
    | some d =>
      simp only [hs, Option.some.injEq] at h
      exact ⟨d, by rw [← h]⟩

lemma probeAt_metric_none {env : Engine} {img : SourceImage} {f : Format}
    {c : Constraint} {q : Nat} {cand : Candidate}
    (hm : c.metric = Metric.none) (h : probeAt env img f c q = some cand) :
    cand.diff = some 0 := by
  simp only [probeAt, hm, score] at h
  cases he : (env.adapters f).encode img q with
  | none => rw [he] at h; simp at h
  | some bytes =>
    rw [he] at h
    simp only [Option.some.injEq] at h
    rw [← h]

lemma bisect_mem {probe : Nat → Option Candidate} {c : Constraint} :
    ∀ {fuel lo hi : Nat} {cand : Candidate},
      cand ∈ bisect probe c fuel lo hi → ∃ q, probe q = some cand := by
  intro fuel
  induction fuel with
  | zero => intro lo hi cand h; simp [bisect] at h
  | succ fuel ih =>
    intro lo hi cand h
    by_cases hlo : hi ≤ lo
    · simp [bisect, hlo] at h
    · simp only [bisect, if_neg hlo] at h
      cases hp : probe ((lo + hi) / 2) with
      | none => rw [hp] at h; exact ih h
      | some cand0 =>
        simp only [hp] at h
        by_cases hm : meetsAll c cand0
        · rw [if_pos hm] at h
          rcases List.mem_cons.mp h with hc | hc
          · exact ⟨(lo + hi) / 2, by rw [hp, hc]⟩
          · exact ih hc
        · rw [if_neg hm] at h
          rcases List.mem_cons.mp h with hc | hc
          · exact ⟨(lo + hi) / 2, by rw [hp, hc]⟩
          · exact ih hc

lemma formatProbes_mem {env : Engine} {img : SourceImage} {c : Constraint}
    {f : Format} {cand : Candidate}
    (h : cand ∈ formatProbes env img c f) :
    ∃ q, probeAt env img f c q = some cand := by
  have extreme :
      ∀ {q : Nat}, cand ∈ (probeAt env img f c q).toList →
        ∃ q0, probeAt env img f c q0 = some cand := by
    intro q hq
    cases hp : probeAt env img f c q with
    | none => rw [hp] at hq; simp at hq
    | some cand0 =>
      rw [hp] at hq
      simp only [Option.toList_some, List.mem_singleton] at hq
      exact ⟨q, by rw [hp, hq]⟩
  have armFull :
      cand ∈ (probeAt env img f c (env.adapters f).qMin).toList ++
          (probeAt env img f c (env.adapters f).qMax).toList ++
          bisect (probeAt env img f c) c bisectCap ((env.adapters f).qMin + 1)
            (env.adapters f).qMax →
        ∃ q, probeAt env img f c q = some cand := by
    intro hc
    rcases List.mem_append.mp hc with hd | hd
    · rcases List.mem_append.mp hd with he | he
      · exact extreme he
      · exact extreme he
    · exact bisect_mem hd
  have armShort :
      cand ∈ (probeAt env img f c (env.adapters f).qMin).toList ++
          (probeAt env img f c (env.adapters f).qMax).toList →
        ∃ q, probeAt env img f c q = some cand := by
    intro hc
    rcases List.mem_append.mp hc with hd | hd
    · exact extreme hd
    · exact extreme hd
  simp only [formatProbes] at h
  split at h
  · exact extreme h
  · split at h
    · split at h
      · exact armFull h
      · exact armShort h
    · exact armFull h

lemma lookupOutcome_collect (env : Engine) (img : SourceImage)
    (c : Constraint) (sched : List Format) (f : Format) :
    lookupOutcome (collectOutcomes env img c sched) f =
      if f ∈ sched then some (searchFormat env img c f) else Option.none := by
  induction sched with
  | nil => simp [collectOutcomes, lookupOutcome]
  | cons g rest ih =>
    simp only [collectOutcomes, List.map_cons, lookupOutcome] at ih ⊢
    by_cases hg : g = f
    · subst hg
      simp
    · have hnotg : f ∉ [g] ∨ True := Or.inr trivial
      rw [if_neg hg, ih]
      by_cases hf : f ∈ rest
      · rw [if_pos hf, if_pos (List.mem_cons_of_mem g hf)]
      · have hnot : f ∉ g :: rest := by
          intro hc
          rcases List.mem_cons.mp hc with h1 | h1
          · exact hg h1.symm
          · exact hf h1
        rw [if_neg hf, if_neg hnot]

/-! ### Helper lemmas about winner selection -/

/-- The byte size a format's contributed candidate would have. -/
def sizeAt (look : Format → Option Candidate) (g : Format) : Option Nat :=
  Option.map Candidate.size (look g)

lemma pickMinSize_eq_none {look : Format → Option Candidate} :
    ∀ {fs : List Format}, pickMinSize look fs = Option.none ↔
      ∀ f ∈ fs, look f = Option.none := by
  intro fs
  induction fs with
  | nil => simp [pickMinSize]
  | cons f rest ih =>
    simp only [pickMinSize]
    cases hl : look f with
    | some cand =>
      cases hr : pickMinSize look rest with
      | some gc =>
        obtain ⟨g, c0⟩ := gc
        constructor
        · intro h
          by_cases hlt : c0.size < cand.size <;> simp [hlt] at h
        · intro h
          exact absurd (h f (List.mem_cons_self f rest)) (by simp [hl])
      | none =>
        constructor
        · intro h; simp at h
        · intro h
          exact absurd (h f (List.mem_cons_self f rest)) (by simp [hl])
    | none =>
      constructor
      · intro h g hg
        rcases List.mem_cons.mp hg with h1 | h1
        · rw [h1]; exact hl
        · exact ih.mp h g h1
      · intro h
        exact ih.mpr (fun g hg => h g (List.mem_cons_of_mem f hg))

lemma pickMinSize_spec {look : Format → Option Candidate} :
    ∀ {fs : List Format} {f : Format} {cand : Candidate},
      pickMinSize look fs = some (f, cand) →
        f ∈ fs ∧ look f = some cand ∧
          ∀ g ∈ fs, ∀ c', look g = some c' → cand.size ≤ c'.size := by
  intro fs
  induction fs with
  | nil => intro f cand h; simp [pickMinSize] at h
  | cons f0 rest ih =>
    intro f cand h
    simp only [pickMinSize] at h
    cases hl : look f0 with
    | none =>
      simp only [hl] at h
      obtain ⟨hmem, hlook, hmin⟩ := ih h
      refine ⟨List.mem_cons_of_mem f0 hmem, hlook, ?_⟩
      intro g hg c' hc'
      rcases List.mem_cons.mp hg with h1 | h1
      · rw [h1, hl] at hc'; exact Option.noConfusion hc'
      · exact hmin g h1 c' hc'
    | some cand0 =>
      cases hr : pickMinSize look rest with
      | none =>
        simp only [hl, hr, Option.some.injEq, Prod.mk.injEq] at h
        obtain ⟨rfl, rfl⟩ := h
        refine ⟨List.mem_cons_self _ _, hl, ?_⟩
        intro g hg c' hc'
        rcases List.mem_cons.mp hg with h1 | h1
        · rw [h1, hl] at hc'
          simp only [Option.some.injEq] at hc'
          rw [← hc']
        · have : look g = Option.none := pickMinSize_eq_none.mp hr g h1
          rw [this] at hc'
          exact Option.noConfusion hc'
      | some gc =>
        obtain ⟨g0, c0⟩ := gc
        obtain ⟨hmem0, hlook0, hmin0⟩ := ih hr
        by_cases hlt : c0.size < cand0.size
        · simp only [hl, hr, if_pos hlt, Option.some.injEq, Prod.mk.injEq] at h
          obtain ⟨rfl, rfl⟩ := h
          refine ⟨List.mem_cons_of_mem f0 hmem0, hlook0, ?_⟩
          intro g hg c' hc'
          rcases List.mem_cons.mp hg with h1 | h1
          · rw [h1, hl] at hc'
            simp only [Option.some.injEq] at hc'
            rw [← hc']
            exact le_of_lt hlt
          · exact hmin0 g h1 c' hc'
        · simp only [hl, hr, if_neg hlt, Option.some.injEq, Prod.mk.injEq] at h
          obtain ⟨rfl, rfl⟩ := h
          refine ⟨List.mem_cons_self _ _, hl, ?_⟩
          intro g hg c' hc'
          rcases List.mem_cons.mp hg with h1 | h1
          · rw [h1, hl] at hc'
            simp only [Option.some.injEq] at hc'
            rw [← hc']
          · exact le_trans (le_of_not_lt hlt) (hmin0 g h1 c' hc')

lemma pickMinSize_first {look : Format → Option Candidate} :
    ∀ {fs : List Format} {f : Format} {cand : Candidate},
      pickMinSize look fs = some (f, cand) →
        fs.find? (fun g => sizeAt look g == some cand.size) = some f := by
  intro fs
  induction fs with
  | nil => intro f cand h; simp [pickMinSize] at h
  | cons f0 rest ih =>
    intro f cand h
    simp only [pickMinSize] at h
    cases hl : look f0 with
    | none =>
      simp only [hl] at h
      have hp : (sizeAt look f0 == some cand.size) = false := by
        simp [sizeAt, hl]
      rw [List.find?_cons_of_neg _ (by simp [hp]), ih h]
    | some cand0 =>
      cases hr : pickMinSize look rest with
      | none =>
        simp only [hl, hr, Option.some.injEq, Prod.mk.injEq] at h
        obtain ⟨rfl, rfl⟩ := h
        exact List.find?_cons_of_pos _ (by simp [sizeAt, hl])
      | some gc =>
        obtain ⟨g0, c0⟩ := gc
        by_cases hlt : c0.size < cand0.size
        · simp only [hl, hr, if_pos hlt, Option.some.injEq, Prod.mk.injEq] at h
          obtain ⟨rfl, rfl⟩ := h
          have hne : cand0.size ≠ c0.size := Nat.ne_of_gt hlt
          rw [List.find?_cons_of_neg _ (by simp [sizeAt, hl]; exact hne), ih hr]
        · simp only [hl, hr, if_neg hlt, Option.some.injEq, Prod.mk.injEq] at h
          obtain ⟨rfl, rfl⟩ := h
          exact List.find?_cons_of_pos _ (by simp [sizeAt, hl])

lemma pickMinSize_congr {look1 look2 : Format → Option Candidate} :
    ∀ {fs : List Format}, (∀ f ∈ fs, look1 f = look2 f) →
      pickMinSize look1 fs = pickMinSize look2 fs := by
  intro fs
  induction fs with
  | nil => intro _; rfl
  | cons f rest ih =>
    intro h
    simp only [pickMinSize]
    rw [h f (List.mem_cons_self f rest),
      ih (fun g hg => h g (List.mem_cons_of_mem f hg))]

lemma satCand_best {look : Format → Option FormatOutcome} {f : Format}
    {cand : Candidate} (h : satCand look f = some cand) :
    bestCand look f = some cand := by
  simp only [satCand, bestCand] at *
  cases hl : look f with
  | none => simp only [hl] at h; exact Option.noConfusion h
  | some o =>
    simp only [hl] at h ⊢
    by_cases hs : o.satisfied
    · rw [if_pos hs] at h; exact h
    · rw [if_neg hs] at h; exact Option.noConfusion h

lemma satCand_satisfied {look : Format → Option FormatOutcome} {f : Format}
    {cand : Candidate} (h : satCand look f = some cand) :
    ∃ o, look f = some o ∧ o.satisfied = true ∧ o.best = some cand := by
  simp only [satCand] at h
  cases hl : look f with
  | none => simp only [hl] at h; exact Option.noConfusion h
  | some o =>
    simp only [hl] at h
    by_cases hs : o.satisfied
    · rw [if_pos hs] at h; exact ⟨o, rfl, hs, h⟩
    · rw [if_neg hs] at h; exact Option.noConfusion h

lemma bestCand_probe {env : Engine} {img : SourceImage} {c : Constraint}
    {sched : List Format} {f : Format} {cand : Candidate}
    (h : bestCand (lookupOutcome (collectOutcomes env img c sched)) f =
      some cand) :
    cand ∈ formatProbes env img c f ∧
      (searchFormat env img c f).best = some cand ∧ f ∈ sched := by
  simp only [bestCand, lookupOutcome_collect] at h
  by_cases hf : f ∈ sched
  · rw [if_pos hf] at h
    simp only at h
    exact ⟨selectCandidate_mem h, h, hf⟩
  · rw [if_neg hf] at h
    exact Option.noConfusion h

/-! ### Helper lemmas about the bounded search and save -/

lemma bisect_length {probe : Nat → Option Candidate} {c : Constraint} :
    ∀ {fuel lo hi : Nat}, (bisect probe c fuel lo hi).length ≤ fuel := by
  intro fuel
  induction fuel with
  | zero => intro lo hi; simp [bisect]
  | succ fuel ih =>
    intro lo hi
    by_cases hlo : hi ≤ lo
    · simp [bisect, hlo]
    · simp only [bisect, if_neg hlo]
      cases hp : probe ((lo + hi) / 2) with
      | none =>
        simp only [hp]
        exact le_trans ih (Nat.le_succ fuel)
      | some cand =>
        simp only [hp]
        by_cases hm : meetsAll c cand
        · simp only [if_pos hm, List.length_cons]
          exact Nat.succ_le_succ ih
        · simp only [if_neg hm, List.length_cons]
          exact Nat.succ_le_succ ih

lemma bisect_collapse {probe : Nat → Option Candidate} {c : Constraint}
    {fuel lo hi : Nat} (h : hi ≤ lo) : bisect probe c fuel lo hi = [] := by
  cases fuel with
  | zero => simp [bisect]
  | succ fuel => simp [bisect, h]

lemma optionToList_length (o : Option Candidate) : o.toList.length ≤ 1 := by
  cases o <;> simp

lemma formatProbes_length (env : Engine) (img : SourceImage) (c : Constraint)
    (f : Format) : (formatProbes env img c f).length ≤ bisectCap + 2 := by
  have hcap : bisectCap = 12 := rfl
  have h1 := optionToList_length (probeAt env img f c (env.adapters f).qMin)
  have h2 := optionToList_length (probeAt env img f c (env.adapters f).qMax)
  have hb : (bisect (probeAt env img f c) c bisectCap ((env.adapters f).qMin + 1)
      (env.adapters f).qMax).length ≤ bisectCap := bisect_length
  simp only [formatProbes]
  split
  · omega
  · split
    · split
      · simp only [List.length_append]
        omega
      · simp only [List.length_append]
        omega
    · simp only [List.length_append]
      omega

lemma searchFormat_ignores (env : Engine) (img : SourceImage)
    (mb : Option Nat) (md : Option ℚ) (m : Metric) (fs1 fs2 : List Format)
    (k1 k2 : Nat) (ce1 ce2 : Bool) (f : Format) :
    searchFormat env img ⟨mb, md, m, fs1, k1, ce1⟩ f =
      searchFormat env img ⟨mb, md, m, fs2, k2, ce2⟩ f := rfl

lemma chunksOfAux_join (k : Nat) :
    ∀ (fuel : Nat) (l : List Nat), l.length ≤ fuel →
      (chunksOfAux k fuel l).flatten = l := by
  intro fuel
  induction fuel with
  | zero =>
    intro l hl
    have : l = [] := List.eq_nil_of_length_eq_zero (Nat.le_zero.mp hl)
    subst this
    simp [chunksOfAux]
  | succ fuel ih =>
    intro l hl
    cases l with
    | nil => simp [chunksOfAux]
    | cons x xs =>
      have hlen : (xs.drop k).length ≤ fuel := by
        have h1 : (List.drop k xs).length = xs.length - k := List.length_drop k xs
        have h2 : xs.length + 1 ≤ fuel + 1 := by simpa using hl
        omega
      simp only [chunksOfAux, List.flatten_cons, ih (xs.drop k) hlen]
      simp [List.take_append_drop]

lemma chunksOf_join (k : Nat) (l : List Nat) : (chunksOf k l).flatten = l :=
  chunksOfAux_join k l.length l (le_refl _)

lemma writeChunks_some {ok : Nat → Bool} :
    ∀ {chs : List (List Nat)} {i : Nat} {m : List Nat},
      writeChunks ok chs i = some m → m = chs.flatten := by
  intro chs
  induction chs with
  | nil =>
    intro i m h
    simp only [writeChunks, Option.some.injEq] at h
    simp [← h]
  | cons ch rest ih =>
    intro i m h
    simp only [writeChunks] at h
    by_cases hok : ok i
    · rw [if_pos hok] at h
      cases hw : writeChunks ok rest (i + 1) with
      | none => simp only [hw] at h; exact Option.noConfusion h
      | some tail =>
        simp only [hw, Option.some.injEq] at h
        rw [← h, ih hw]
        simp [List.flatten_cons]
    · rw [if_neg hok] at h; exact Option.noConfusion h

lemma selectWinner_some {c : Constraint}
    {outcomes : List (Format × FormatOutcome)} {p : Bool} {f : Format}
    {cand : Candidate}
    (h : selectWinner c outcomes = (p, some (f, cand))) :
    bestCand (lookupOutcome outcomes) f = some cand ∧
      f ∈ c.candidate_formats := by
  simp only [selectWinner] at h
  cases hw : pickMinSize (satCand (lookupOutcome outcomes))
      c.candidate_formats with
  | some fc =>
    simp only [hw, Prod.mk.injEq, Option.some.injEq] at h
    obtain ⟨-, h2⟩ := h
    subst h2
    obtain ⟨hmem, hlook, -⟩ := pickMinSize_spec hw
    exact ⟨satCand_best hlook, hmem⟩
  | none =>
    simp only [hw, Prod.mk.injEq] at h
    obtain ⟨-, h2⟩ := h
    obtain ⟨hmem, hlook, -⟩ := pickMinSize_spec h2
    exact ⟨hlook, hmem⟩

lemma winner_probe {env : Engine} {img : SourceImage} {c : Constraint}
    {sched : List Format} {p : Bool} {f : Format} {cand : Candidate}
    (h : selectWinner c (collectOutcomes env img c sched) =
      (p, some (f, cand))) :
    ∃ q, probeAt env img f c q = some cand := by
  obtain ⟨hb, -⟩ := selectWinner_some h
  obtain ⟨hmem, -, -⟩ := bestCand_probe hb
  exact formatProbes_mem hmem

lemma optimizeDecoded_passed_iff (env : Engine) (img : SourceImage)
    (c : Constraint) (sched : List Format) :
    (optimizeDecoded env img c sched).passed = true ↔
      ((∃ f, (optimizeDecoded env img c sched).format = some f) ∧
        (∀ mb, c.max_bytes = some mb →
          (optimizeDecoded env img c sched).size ≤ mb) ∧
        (∀ md, c.max_diff = some md →
          (optimizeDecoded env img c sched).diff_value ≤ md)) := by
  cases hw : selectWinner c (collectOutcomes env img c sched) with
  | mk p ow =>
    have hr : optimizeDecoded env img c sched = assemble (p, ow) := by
      unfold optimizeDecoded
      rw [hw]
    rw [hr]
    cases ow with
    | none => simp [assemble]
    | some fc =>
      obtain ⟨f, cand⟩ := fc
      simp only [selectWinner] at hw
      cases hs : pickMinSize
          (satCand (lookupOutcome (collectOutcomes env img c sched)))
          c.candidate_formats with
      | some fc0 =>
        simp only [hs, Prod.mk.injEq, Option.some.injEq] at hw
        obtain ⟨hp, hfc⟩ := hw
        subst hp
        subst hfc
        obtain ⟨hmem, hlook, hmin⟩ := pickMinSize_spec hs
        obtain ⟨o, holook, hosat, hobest⟩ := satCand_satisfied hlook
        rw [lookupOutcome_collect] at holook
        by_cases hf : f ∈ sched
        · rw [if_pos hf] at holook
          simp only [Option.some.injEq] at holook
          have hosat2 : (searchFormat env img c f).satisfied = true := by
            rw [holook]; exact hosat
          have hobest2 : (searchFormat env img c f).best = some cand := by
            rw [holook]; exact hobest
          obtain ⟨bb, hbb, hmeets⟩ := selectCandidate_sat hosat2
          have hobest3 : (selectCandidate c (formatProbes env img c f)).best =
              some cand := hobest2
          have hbc : bb = cand := by
            rw [hbb] at hobest3
            simpa using hobest3
          subst hbc
          constructor
          · intro _
            refine ⟨⟨f, rfl⟩, ?_, ?_⟩
            · intro mb hmb
              simp only [meetsAll, Bool.and_eq_true] at hmeets
              have hms := hmeets.1
              simp only [meetsSize, hmb] at hms
              have : bb.size ≤ mb := of_decide_eq_true hms
              simpa [assemble] using this
            · intro md hmd
              simp only [meetsAll, Bool.and_eq_true] at hmeets
              have hmdv := hmeets.2
              simp only [meetsDiff, hmd] at hmdv
              cases hdv : bb.diff with
              | none =>
                simp only [hdv] at hmdv
                exact Bool.noConfusion hmdv
              | some d =>
                simp only [hdv] at hmdv
                have : d ≤ md := of_decide_eq_true hmdv
                simpa [assemble, hdv] using this
          · intro _
            rfl
        · rw [if_neg hf] at holook
          exact Option.noConfusion holook
      | none =>
        simp only [hs, Prod.mk.injEq, Option.some.injEq] at hw
        obtain ⟨hp, hfc⟩ := hw
        subst hp
        constructor
        · intro hcontra
          exact absurd hcontra (by simp [assemble])
        · intro hrhs
          exfalso
          obtain ⟨-, hsize, hdiff⟩ := hrhs
          obtain ⟨hmem, hlook, hmin⟩ := pickMinSize_spec hfc
          obtain ⟨hcandmem, hbest, hfsched⟩ := bestCand_probe hlook
          have hsatnone : satCand
              (lookupOutcome (collectOutcomes env img c sched)) f =
              Option.none := pickMinSize_eq_none.mp hs f hmem
          have hsatfalse : (searchFormat env img c f).satisfied = false := by
            unfold satCand at hsatnone
            rw [lookupOutcome_collect, if_pos hfsched] at hsatnone
            simp only at hsatnone
            cases hsf : (searchFormat env img c f).satisfied with
            | true =>
              rw [if_pos hsf] at hsatnone
              rw [hbest] at hsatnone
              exact Option.noConfusion hsatnone
            | false => rfl
          have hunsat : meetsAll c cand = false :=
            selectCandidate_unsat hsatfalse hbest
          obtain ⟨q, hq⟩ := formatProbes_mem hcandmem
          obtain ⟨d, hd⟩ := probeAt_diff hq
          have hms : meetsSize c cand = true := by
            cases hmb : c.max_bytes with
            | none => simp [meetsSize, hmb]
            | some mb =>
              have hsz := hsize mb hmb
              simp only [assemble] at hsz
              simp [meetsSize, hmb, hsz]
          have hmdif : meetsDiff c cand = true := by
            cases hmd : c.max_diff with
            | none => simp [meetsDiff, hmd]
            | some md =>
              have hdv := hdiff md hmd
              simp only [assemble] at hdv
              rw [hd] at hdv
              simp only [Option.getD_some] at hdv
              simp [meetsDiff, hmd, hd, hdv]
          have hall : meetsAll c cand = true := by
            simp [meetsAll, hms, hmdif]
          rw [hall] at hunsat
          exact Bool.noConfusion hunsat

/-! ### Concrete fixtures for the witnesses -/

/-- A satisfiable constraint set over two candidate formats. -/
def toyConstraint : Constraint :=
  ⟨some 25, some 1, Metric.dssim, [Format.jpeg, Format.webp], 2, false⟩

/-- An unattainable size bound (10 bytes) over the jpeg adapter whose
smallest encoding has 21 bytes. -/
def hardConstraint : Constraint :=
  ⟨some 10, some 1, Metric.dssim, [Format.jpeg], 1, false⟩

/-- The satisfiable constraint set with the cache enabled. -/
def cacheConstraint : Constraint :=
  ⟨some 25, some 1, Metric.dssim, [Format.jpeg, Format.webp], 2, true⟩

/-- The satisfiable constraint set under `metric = none`. -/
def noneMetricConstraint : Constraint :=
  ⟨some 25, some 1, Metric.none, [Format.jpeg, Format.webp], 2, false⟩

/-- The result the toy engine produces for `toyBytes` under
`toyConstraint`: webp wins with the 11-byte encoding. -/
def toyResult : OptimizationResult :=
  ⟨true, some Format.webp, List.replicate 11 7, 11, 0, Option.none⟩

/-- The cache contents after the first cached request. -/
def toyStoreAfter : Cache :=
  [(fingerprint toyBytes cacheConstraint, toyResult)]

/-- An empty, everywhere-writable destination file system. -/
def toyFiles : FileStore := ⟨[], fun _ => true⟩

/-- An empty destination file system where nothing can be created. -/
def roFiles : FileStore := ⟨[], fun _ => false⟩

/-- A fresh destination path. -/
def destPath : String := "out.webp"

/-- A path no file store entry carries. -/
def missingPath : String := "/nonexistent/file.jpg"

/-- A small buffer to save. -/
def saveData : List Nat := [1, 2, 3, 4, 5, 6, 7]

/-! ### The claims -/

/-- C1: for every optimization result with `passed = true`, `size ≤
max_bytes` when set and `diff_value ≤ max_diff` when set; conversely,
`passed` is true if and only if every constraint that was set is satisfied
by the chosen candidate (and a candidate was chosen), an unset constraint
being vacuously satisfied. -/
theorem C1_passed_iff_constraints (env : Engine) (b : List Nat)
    (c : Constraint) (r : OptimizationResult)
    (h : optimize_from_bytes env b c = Except.ok r) :
    r.passed = true ↔
      ((∃ f, r.format = some f) ∧
        (∀ mb, c.max_bytes = some mb → r.size ≤ mb) ∧
        (∀ md, c.max_diff = some md → r.diff_value ≤ md)) := by
  simp only [optimize_from_bytes] at h
  cases hd : decode env.parseBody b with
  | error e =>
    simp only [hd] at h
    exact Except.noConfusion h
  | ok img =>
    simp only [hd, Except.ok.injEq] at h
    subst h
    exact optimizeDecoded_passed_iff env img c c.candidate_formats

/-- C1 witness: a concrete passing run on the toy engine, with both
constraints set and satisfied. -/
theorem C1_passed_iff_constraints_witness :
    optimize_from_bytes toyEngine toyBytes toyConstraint =
        Except.ok toyResult ∧
      (toyResult.passed = true ↔
        ((∃ f, toyResult.format = some f) ∧
          (∀ mb, toyConstraint.max_bytes = some mb → toyResult.size ≤ mb) ∧
          (∀ md, toyConstraint.max_diff = some md →
            toyResult.diff_value ≤ md))) :=
  ⟨by rfl,
   C1_passed_iff_constraints toyEngine toyBytes toyConstraint toyResult
     (by rfl)⟩

/-- C2: for every malformed input byte buffer (empty, truncated header, or
not a recognized image container), the optimization entry point fails with a
`DecodeError` raised by the decoder, before any format search begins, and
returns no result. -/
theorem C2_malformed_decode_error (env : Engine) (b : List Nat)
    (c : Constraint) (h : malformedInput b = true) :
    ∃ e : DecodeError, decode env.parseBody b = Except.error e ∧
      optimize_from_bytes env b c =
        Except.error (OptError.decodeFailed e) := by
  have key : ∃ e : DecodeError, decode env.parseBody b = Except.error e := by
    by_cases hE : b.isEmpty
    · exact ⟨DecodeError.emptyInput, by simp [decode, hE]⟩
    · by_cases hT : looksTruncated b
      · exact ⟨DecodeError.truncatedHeader, by simp [decode, hE, hT]⟩
      · have hN : detectFormat b = Option.none := by
          simp only [malformedInput, hE, hT, Bool.false_or] at h
          exact Option.isNone_iff_eq_none.mp h
        exact ⟨DecodeError.unknownContainer, by simp [decode, hE, hT, hN]⟩
  obtain ⟨e, he⟩ := key
  exact ⟨e, he, by simp [optimize_from_bytes, he]⟩

/-- C2 witness: the empty buffer, a truncated PNG header, and a buffer with
no recognized signature each fail with a decode error on the toy engine. -/
theorem C2_malformed_decode_error_witness :
    (malformedInput [] = true ∧
      ∃ e : DecodeError, decode toyEngine.parseBody [] = Except.error e ∧
        optimize_from_bytes toyEngine [] toyConstraint =
          Except.error (OptError.decodeFailed e)) ∧
    (malformedInput [137, 80, 78] = true ∧
      ∃ e : DecodeError,
        decode toyEngine.parseBody [137, 80, 78] = Except.error e ∧
          optimize_from_bytes toyEngine [137, 80, 78] toyConstraint =
            Except.error (OptError.decodeFailed e)) ∧
    (malformedInput [18, 52, 86, 120] = true ∧
      ∃ e : DecodeError,
        decode toyEngine.parseBody [18, 52, 86, 120] = Except.error e ∧
          optimize_from_bytes toyEngine [18, 52, 86, 120] toyConstraint =
            Except.error (OptError.decodeFailed e)) :=
  ⟨⟨by decide, C2_malformed_decode_error toyEngine [] toyConstraint
      (by decide)⟩,
   ⟨by decide, C2_malformed_decode_error toyEngine [137, 80, 78]
      toyConstraint (by decide)⟩,
   ⟨by decide, C2_malformed_decode_error toyEngine [18, 52, 86, 120]
      toyConstraint (by decide)⟩⟩

/-- C3: for every request whose set constraints cannot be attained by any
candidate format (no format outcome is satisfied) while some format still
produced candidates, the result has `passed = false`, `error_message`
absent, and `output_buffer` holding the best-effort smallest candidate
found across the formats. -/
theorem C3_unattainable_best_effort (env : Engine) (img : SourceImage)
    (c : Constraint)
    (hns : ∀ f ∈ c.candidate_formats,
      (searchFormat env img c f).satisfied = false)
    (hex : ∃ f, f ∈ c.candidate_formats ∧
      (searchFormat env img c f).best ≠ Option.none) :
    (optimizeDecoded env img c c.candidate_formats).passed = false ∧
      (optimizeDecoded env img c c.candidate_formats).error_message =
        Option.none ∧
      ∃ f cand,
        bestCand (lookupOutcome
            (collectOutcomes env img c c.candidate_formats)) f =
          some cand ∧
        (optimizeDecoded env img c c.candidate_formats).format = some f ∧
        (optimizeDecoded env img c c.candidate_formats).output_buffer =
          cand.data ∧
        (optimizeDecoded env img c c.candidate_formats).size = cand.size ∧
        ∀ g ∈ c.candidate_formats, ∀ c',
          bestCand (lookupOutcome
              (collectOutcomes env img c c.candidate_formats)) g =
            some c' → cand.size ≤ c'.size := by
  have hsatnone : pickMinSize
      (satCand (lookupOutcome (collectOutcomes env img c
        c.candidate_formats))) c.candidate_formats = Option.none := by
    refine pickMinSize_eq_none.mpr (fun f hf => ?_)
    unfold satCand
    rw [lookupOutcome_collect, if_pos hf]
    simp [hns f hf]
  cases hb : pickMinSize
      (bestCand (lookupOutcome (collectOutcomes env img c
        c.candidate_formats))) c.candidate_formats with
  | none =>
    exfalso
    obtain ⟨f, hf, hne⟩ := hex
    have hnone : bestCand (lookupOutcome (collectOutcomes env img c
        c.candidate_formats)) f = Option.none :=
      pickMinSize_eq_none.mp hb f hf
    unfold bestCand at hnone
    rw [lookupOutcome_collect, if_pos hf] at hnone
    simp only at hnone
    exact hne hnone
  | some fc =>
    obtain ⟨f, cand⟩ := fc
    have hw : selectWinner c (collectOutcomes env img c c.candidate_formats)
        = (false, some (f, cand)) := by
      simp only [selectWinner, hsatnone, hb]
    have hr : optimizeDecoded env img c c.candidate_formats =
        assemble (false, some (f, cand)) := by
      unfold optimizeDecoded
      rw [hw]
    obtain ⟨hmem, hlook, hmin⟩ := pickMinSize_spec hb
    rw [hr]
    exact ⟨rfl, rfl, f, cand, hlook, rfl, rfl, rfl, hmin⟩

/-- C3 witness: `max_bytes = 10` is unattainable for the toy jpeg adapter
(smallest encoding 21 bytes): `passed = false`, no error message. -/
theorem C3_unattainable_best_effort_witness :
    (∀ f ∈ hardConstraint.candidate_formats,
      (searchFormat toyEngine toyImage hardConstraint f).satisfied = false) ∧
      (optimizeDecoded toyEngine toyImage hardConstraint
          hardConstraint.candidate_formats).passed = false ∧
      (optimizeDecoded toyEngine toyImage hardConstraint
          hardConstraint.candidate_formats).error_message = Option.none := by
  have h := C3_unattainable_best_effort toyEngine toyImage hardConstraint
    (by decide) ⟨Format.jpeg, by decide, by decide⟩
  exact ⟨by decide, h.1, h.2.1⟩

/-- C4: with the cache disabled, the optimization result is a function of
the input and constraints alone — the concurrency level and the order the
per-format outcomes are collected in (any permutation of
`candidate_formats`, as induced by any scheduler) never change the chosen
format, size, or any other field of the result. -/
theorem C4_concurrency_determinism (env : Engine) (img : SourceImage)
    (mb : Option Nat) (md : Option ℚ) (m : Metric) (fs : List Format)
    (k1 k2 : Nat) (sched1 sched2 : List Format)
    (h1 : sched1.Perm fs) (h2 : sched2.Perm fs) :
    optimizeDecoded env img ⟨mb, md, m, fs, k1, false⟩ sched1 =
      optimizeDecoded env img ⟨mb, md, m, fs, k2, false⟩ sched2 := by
  have hlook : ∀ f,
      lookupOutcome
          (collectOutcomes env img ⟨mb, md, m, fs, k1, false⟩ sched1) f =
        lookupOutcome
          (collectOutcomes env img ⟨mb, md, m, fs, k2, false⟩ sched2) f := by
    intro f
    rw [lookupOutcome_collect, lookupOutcome_collect]
    by_cases hf : f ∈ fs
    · rw [if_pos (h1.mem_iff.mpr hf), if_pos (h2.mem_iff.mpr hf),
        searchFormat_ignores env img mb md m fs fs k1 k2 false false f]
    · rw [if_neg (fun hc => hf (h1.mem_iff.mp hc)),
        if_neg (fun hc => hf (h2.mem_iff.mp hc))]
  have hsat : ∀ f ∈ fs,
      satCand (lookupOutcome
          (collectOutcomes env img ⟨mb, md, m, fs, k1, false⟩ sched1)) f =
        satCand (lookupOutcome
          (collectOutcomes env img ⟨mb, md, m, fs, k2, false⟩ sched2)) f := by
    intro f _
    unfold satCand
    rw [hlook f]
  have hbest : ∀ f ∈ fs,
      bestCand (lookupOutcome
          (collectOutcomes env img ⟨mb, md, m, fs, k1, false⟩ sched1)) f =
        bestCand (lookupOutcome
          (collectOutcomes env img ⟨mb, md, m, fs, k2, false⟩ sched2)) f := by
    intro f _
    unfold bestCand
    rw [hlook f]
  unfold optimizeDecoded
  congr 1
  simp only [selectWinner]
  rw [pickMinSize_congr hsat, pickMinSize_congr hbest]

/-- C4 witness: concrete runs at concurrency 1 and 8 with opposite
collection orders coincide on the toy engine. -/
theorem C4_concurrency_determinism_witness :
    List.Perm [Format.webp, Format.jpeg] [Format.jpeg, Format.webp] ∧
      optimizeDecoded toyEngine toyImage
          ⟨some 25, some 1, Metric.dssim, [Format.jpeg, Format.webp], 1,
            false⟩ [Format.webp, Format.jpeg] =
        optimizeDecoded toyEngine toyImage
          ⟨some 25, some 1, Metric.dssim, [Format.jpeg, Format.webp], 8,
            false⟩ [Format.jpeg, Format.webp] :=
  ⟨List.Perm.swap Format.jpeg Format.webp [],
   C4_concurrency_determinism toyEngine toyImage (some 25) (some 1)
     Metric.dssim [Format.jpeg, Format.webp] 1 8 [Format.webp, Format.jpeg]
     [Format.jpeg, Format.webp] (List.Perm.swap Format.jpeg Format.webp [])
     (List.Perm.refl _)⟩

/-- C5: with `cache_enabled = true`, a second identical request returns a
result byte-identical to the first request's (`output_buffer`, `size`,
`format` and all other fields equal), leaving the cache unchanged; and when
the first request was a cache miss, the result it cached is exactly the full
computation's result. -/
theorem C5_cache_equivalence (env : Engine) (store : Cache) (b : List Nat)
    (c : Constraint) (r1 : OptimizationResult) (store1 : Cache)
    (hc : c.cache_enabled = true)
    (h1 : optimize_cached env store b c = (Except.ok r1, store1)) :
    optimize_cached env store1 b c = (Except.ok r1, store1) ∧
      (cacheGet store (fingerprint b c) = Option.none →
        optimize_from_bytes env b c = Except.ok r1) := by
  simp only [optimize_cached, hc, if_true] at h1 ⊢
  cases hg : cacheGet store (fingerprint b c) with
  | some r =>
    simp only [hg, Prod.mk.injEq, Except.ok.injEq] at h1
    obtain ⟨hr, hs⟩ := h1
    subst hs
    subst hr
    constructor
    · simp [hg]
    · intro hnone
      exact Option.noConfusion hnone
  | none =>
    simp only [hg] at h1
    cases ho : optimize_from_bytes env b c with
    | error e =>
      simp only [ho, Prod.mk.injEq] at h1
      exact absurd h1.1 (by simp)
    | ok r =>
      simp only [ho, Prod.mk.injEq, Except.ok.injEq] at h1
      obtain ⟨hr, hs⟩ := h1
      subst hr
      constructor
      · rw [← hs]
        have hget : cacheGet (cachePut store (fingerprint b c) r)
            (fingerprint b c) = some r := by
          simp [cachePut, cacheGet]
        simp [hget]
      · intro _
        rfl

/-- C5 witness: on the toy engine, the first cached request computes and
stores; the second identical request returns the identical result. -/
theorem C5_cache_equivalence_witness :
    cacheConstraint.cache_enabled = true ∧
      optimize_cached toyEngine [] toyBytes cacheConstraint =
        (Except.ok toyResult, toyStoreAfter) ∧
      optimize_cached toyEngine toyStoreAfter toyBytes cacheConstraint =
        (Except.ok toyResult, toyStoreAfter) :=
  ⟨rfl, by rfl,
   (C5_cache_equivalence toyEngine [] toyBytes cacheConstraint toyResult
     toyStoreAfter rfl (by rfl)).1⟩

/-- C6: for every fresh destination, after `save` either the destination
holds exactly the bytes of the buffer (and `save` reported success) or the
destination does not exist (and `save` reported failure); an uncreatable
destination fails with the distinct `cannotCreate` error.  No truncated file
is ever observable at the destination, whatever chunk writes fail. -/
theorem C6_save_atomicity (st : FileStore) (dest : String) (data : List Nat)
    (ok : Nat → Bool) (hfresh : fsGet st.files dest = Option.none) :
    (((save st dest data ok).2 = Except.ok () ∧
        fsGet (save st dest data ok).1.files dest = some data) ∨
      ((save st dest data ok).2 ≠ Except.ok () ∧
        fsGet (save st dest data ok).1.files dest = Option.none)) ∧
      (st.writable dest = false →
        (save st dest data ok).2 = Except.error SaveError.cannotCreate) := by
  by_cases hw : st.writable dest
  · constructor
    · cases hwc : writeChunks ok (chunksOf saveGrain data) 0 with
      | some full =>
        left
        have hfull : full = data := by
          rw [writeChunks_some hwc, chunksOf_join]
        constructor
        · simp [save, hw, hwc]
        · simp [save, hw, hwc, fsSet, fsGet, hfull]
      | none =>
        right
        constructor
        · simp [save, hw, hwc]
        · simp [save, hw, hwc, hfresh]
    · intro hcontra
      simp [hw] at hcontra
  · constructor
    · right
      constructor
      · simp [save, hw]
      · simp [save, hw, hfresh]
    · intro _
      simp [save, hw]

/-- C6 witness: a successful save publishes exactly the buffer; an
uncreatable destination fails with the distinct error and publishes
nothing. -/
theorem C6_save_atomicity_witness :
    fsGet toyFiles.files destPath = Option.none ∧
      fsGet (save toyFiles destPath saveData (fun _ => true)).1.files
        destPath = some saveData ∧
      (save roFiles destPath saveData (fun _ => true)).2 =
        Except.error SaveError.cannotCreate := by
  refine ⟨rfl, ?_, ?_⟩
  · rcases (C6_save_atomicity toyFiles destPath saveData (fun _ => true)
      rfl).1 with h1 | h1
    · exact h1.2
    · exact absurd rfl h1.1
  · exact (C6_save_atomicity roFiles destPath saveData (fun _ => true)
      rfl).2 rfl

/-- C7: the per-format constraint search is bounded: the bisection performs
at most `fuel` steps and stops as soon as the quality interval collapses;
with the iteration cap of 12, a format's search performs at most
`bisectCap + 2 = 14` probe encodes in total — it never loops unboundedly. -/
theorem C7_bounded_search :
    bisectCap = 12 ∧
      (∀ (probe : Nat → Option Candidate) (c : Constraint) (fuel lo hi : Nat),
        (bisect probe c fuel lo hi).length ≤ fuel) ∧
      (∀ (probe : Nat → Option Candidate) (c : Constraint) (fuel lo hi : Nat),
        hi ≤ lo → bisect probe c fuel lo hi = []) ∧
      (∀ (env : Engine) (img : SourceImage) (c : Constraint) (f : Format),
        (formatProbes env img c f).length ≤ bisectCap + 2) :=
  ⟨rfl, fun _ _ _ _ _ => bisect_length,
   fun _ _ _ _ _ h => bisect_collapse h,
   fun env img c f => formatProbes_length env img c f⟩

/-- C7 witness: the bound instantiated on the toy engine, including a
collapsed interval. -/
theorem C7_bounded_search_witness :
    (bisect (fun _ => Option.none) toyConstraint bisectCap 2 8).length ≤
        bisectCap ∧
      bisect (fun _ => Option.none) toyConstraint bisectCap 7 5 = [] ∧
      (formatProbes toyEngine toyImage toyConstraint Format.jpeg).length ≤
        bisectCap + 2 :=
  ⟨C7_bounded_search.2.1 (fun _ => Option.none) toyConstraint bisectCap 2 8,
   C7_bounded_search.2.2.1 (fun _ => Option.none) toyConstraint bisectCap 7 5
     (by decide),
   C7_bounded_search.2.2.2 toyEngine toyImage toyConstraint Format.jpeg⟩

/-- C8: when the selector reports a satisfied winner, that winner is the
contributed satisfying candidate of its format, has the smallest byte size
among all formats' satisfying candidates, and its format is the first in
`candidate_formats` achieving that size (ties broken by declaration
order). -/
theorem C8_winner_selection (c : Constraint)
    (outcomes : List (Format × FormatOutcome)) (f : Format)
    (cand : Candidate)
    (h : selectWinner c outcomes = (true, some (f, cand))) :
    satCand (lookupOutcome outcomes) f = some cand ∧
      (∀ g ∈ c.candidate_formats, ∀ c',
        satCand (lookupOutcome outcomes) g = some c' →
          cand.size ≤ c'.size) ∧
      c.candidate_formats.find?
        (fun g => sizeAt (satCand (lookupOutcome outcomes)) g ==
          some cand.size) = some f := by
  simp only [selectWinner] at h
  cases hw : pickMinSize (satCand (lookupOutcome outcomes))
      c.candidate_formats with
  | some fc =>
    simp only [hw, Prod.mk.injEq, Option.some.injEq] at h
    obtain ⟨-, h2⟩ := h
    subst h2
    obtain ⟨hmem, hlook, hmin⟩ := pickMinSize_spec hw
    exact ⟨hlook, hmin, pickMinSize_first hw⟩
  | none =>
    simp only [hw, Prod.mk.injEq] at h
    exact absurd h.1 (by simp)

/-- C8 witness: with `formats = [jpeg, webp]` and both satisfying the
constraints, webp's 11-byte candidate beats jpeg's 21-byte one and webp is
chosen. -/
theorem C8_winner_selection_witness :
    selectWinner toyConstraint
        (collectOutcomes toyEngine toyImage toyConstraint
          [Format.jpeg, Format.webp]) =
      (true, some (Format.webp,
        (⟨Format.webp, 1, List.replicate 11 7, 11, some 0⟩ : Candidate))) ∧
      satCand (lookupOutcome (collectOutcomes toyEngine toyImage
          toyConstraint [Format.jpeg, Format.webp])) Format.webp =
        some ⟨Format.webp, 1, List.replicate 11 7, 11, some 0⟩ :=
  ⟨by rfl,
   (C8_winner_selection toyConstraint
     (collectOutcomes toyEngine toyImage toyConstraint
       [Format.jpeg, Format.webp]) Format.webp
     ⟨Format.webp, 1, List.replicate 11 7, 11, some 0⟩ (by rfl)).1⟩

/-- C9: when `metric = none`, the metric evaluator short-circuits to the
fixed value 0, performs zero round-trip decodes (its result is independent
of the round-trip decoder), and the optimization result's `diff_value` is
that fixed 0 rather than a measured distance. -/
theorem C9_metric_none_shortcircuit :
    (∀ (perceptual : Metric → SourceImage → SourceImage → ℚ)
        (rd rd' : Format → List Nat → Option SourceImage)
        (ref : SourceImage) (fmt : Format) (cand : List Nat),
        score perceptual rd ref fmt cand Metric.none = (some 0, 0) ∧
          score perceptual rd ref fmt cand Metric.none =
            score perceptual rd' ref fmt cand Metric.none) ∧
      (∀ (env : Engine) (img : SourceImage) (c : Constraint)
          (sched : List Format), c.metric = Metric.none →
        (optimizeDecoded env img c sched).diff_value = 0) := by
  constructor
  · intro perceptual rd rd' ref fmt cand
    exact ⟨rfl, rfl⟩
  · intro env img c sched hm
    cases hw : selectWinner c (collectOutcomes env img c sched) with
    | mk p ow =>
      have hr : optimizeDecoded env img c sched = assemble (p, ow) := by
        unfold optimizeDecoded
        rw [hw]
      rw [hr]
      cases ow with
      | none => simp [assemble]
      | some fc =>
        obtain ⟨f, cand⟩ := fc
        obtain ⟨q, hq⟩ := winner_probe hw
        have hd : cand.diff = some 0 := probeAt_metric_none hm hq
        simp [assemble, hd]

/-- C9 witness: a run with `metric = none` on the toy engine yields
`diff_value = 0`. -/
theorem C9_metric_none_shortcircuit_witness :
    score toyEngine.perceptual toyEngine.reDecode toyImage Format.jpeg
        (List.replicate 21 7) Metric.none = (some 0, 0) ∧
      noneMetricConstraint.metric = Metric.none ∧
      (optimizeDecoded toyEngine toyImage noneMetricConstraint
        noneMetricConstraint.candidate_formats).diff_value = 0 :=
  ⟨(C9_metric_none_shortcircuit.1 toyEngine.perceptual toyEngine.reDecode
      toyEngine.reDecode toyImage Format.jpeg (List.replicate 21 7)).1,
   rfl,
   C9_metric_none_shortcircuit.2 toyEngine toyImage noneMetricConstraint
     noneMetricConstraint.candidate_formats rfl⟩

/-- C10: calling the path-based entry point on a file that does not exist
raises a hard failure (`fileNotFound`), never returning an
`OptimizationResult`. -/
theorem C10_missing_file_raises (env : Engine)
    (files : List (String × List Nat)) (p : String) (c : Constraint)
    (h : fsGet files p = Option.none) :
    optimize_image env files (ImageInput.path p) c =
      Except.error OptError.fileNotFound := by
  simp [optimize_image, h]

/-- C10 witness: the missing path on an empty file store. -/
theorem C10_missing_file_raises_witness :
    fsGet [] missingPath = Option.none ∧
      optimize_image toyEngine [] (ImageInput.path missingPath)
        toyConstraint = Except.error OptError.fileNotFound :=
  ⟨rfl, C10_missing_file_raises toyEngine [] missingPath toyConstraint rfl⟩

end Pyjamaz
